import Mathlib

/-!
Shallow embedding of the trading core of a binary prediction-market
platform: the exact-decimal ledger and position accounting, the pure
settlement calculators, the in-memory matching engine, and the order
placement / order cancel / market resolution flows built on them.
Decimal values are embedded as rationals; timestamps as naturals.
Fallible operations return `Except`; a thrown error aborts the
enclosing storage transaction, so an `error` result carries no state
change.
-/

inductive Outcome
  | YES
  | NO
  deriving DecidableEq

inductive OrderSide
  | BUY
  | SELL
  deriving DecidableEq

inductive OrderStatus
  | OPEN
  | PARTIAL
  | FILLED
  | CANCELLED
  deriving DecidableEq

inductive MarketStatus
  | OPEN
  | RESOLVED
  | CANCELLED
  deriving DecidableEq

inductive LedgerReason
  | FAUCET_CREDIT
  | ORDER_RESERVE
  | ORDER_RESERVE_RELEASE
  | TRADE_BUY
  | TRADE_SELL
  | TRADE_FEE
  | SETTLEMENT_WIN
  | SETTLEMENT_LOSS
  | MARKET_CANCEL_REFUND
  | ADMIN_ADJUSTMENT
  deriving DecidableEq

/-- Ledger-package balance state: available and reserved funds of one user. -/
structure BalanceState where
  available : ℚ
  reserved : ℚ
  deriving DecidableEq

/-- Input for one append-only ledger entry. -/
structure LedgerEntryInput where
  userId : String
  deltaAvailable : ℚ
  deltaReserved : ℚ
  reason : LedgerReason
  refType : Option String := none
  refId : Option String := none
  deriving DecidableEq

def SYSTEM_USER_ID : String := "system"

/-- Validates that a balance state holds no negative values. -/
def validateBalanceState (b : BalanceState) : Except String BalanceState :=
  if b.available < 0 then
    .error "Available balance cannot be negative"
  else if b.reserved < 0 then
    .error "Reserved balance cannot be negative"
  else
    .ok b

/-- Computes the new balance after applying a ledger entry, validating it. -/
def applyLedgerEntry (current : BalanceState) (entry : LedgerEntryInput) :
    Except String BalanceState :=
  validateBalanceState
    { available := current.available + entry.deltaAvailable
      reserved := current.reserved + entry.deltaReserved }

/-- Position of one user in one market outcome. -/
structure PositionState where
  shares : ℚ
  reservedShares : ℚ
  avgPrice : ℚ
  deriving DecidableEq

/-- Validates that a position state holds no negative values and that
reserved shares never exceed total shares. -/
def validatePositionState (p : PositionState) : Except String PositionState :=
  if p.shares < 0 then
    .error "Shares cannot be negative"
  else if p.reservedShares < 0 then
    .error "Reserved shares cannot be negative"
  else if p.shares < p.reservedShares then
    .error "Reserved shares cannot exceed total shares"
  else
    .ok p

/-- Reserve shares for a SELL order. -/
def reserveShares (p : PositionState) (amount : ℚ) : Except String PositionState :=
  validatePositionState { p with reservedShares := p.reservedShares + amount }

/-- Release reserved shares on cancel. -/
def releaseReservedShares (p : PositionState) (amount : ℚ) :
    Except String PositionState :=
  validatePositionState { p with reservedShares := p.reservedShares - amount }

/-- Default taker fee rate of 1 percent. -/
def defaultTakerFeeRate : ℚ := 1 / 100

/-- Taker fee for a trade of the given value. -/
def calculateTakerFee (tradeValue feeRate : ℚ) : ℚ :=
  tradeValue * feeRate

/-- Position row handed to the resolution settlement calculator. -/
structure PositionForSettlement where
  userId : String
  marketId : String
  outcome : Outcome
  shares : ℚ
  reservedShares : ℚ
  avgPrice : ℚ
  deriving DecidableEq

/-- Position update produced by the resolution settlement calculator. -/
structure SettlementPositionUpdate where
  userId : String
  marketId : String
  outcome : Outcome
  newShares : ℚ
  newReservedShares : ℚ
  deriving DecidableEq

structure SettlementResult where
  ledgerEntries : List LedgerEntryInput
  positionUpdates : List SettlementPositionUpdate
  deriving DecidableEq

/-- Settlement for market resolution: winners redeem at 1.0 per share,
losers get a zero-delta audit entry, every touched position is cleared;
positions of other markets and zero-share positions are skipped. -/
def calculateSettlement (marketId : String) (winningOutcome : Outcome) :
    List PositionForSettlement → SettlementResult
  | [] => { ledgerEntries := [], positionUpdates := [] }
  | position :: rest =>
    let r := calculateSettlement marketId winningOutcome rest
    if position.marketId ≠ marketId then r
    else if position.shares = 0 then r
    else
      let entry : LedgerEntryInput :=
        if position.outcome = winningOutcome then
          { userId := position.userId
            deltaAvailable := position.shares
            deltaReserved := 0
            reason := .SETTLEMENT_WIN
            refType := some "market"
            refId := some marketId }
        else
          { userId := position.userId
            deltaAvailable := 0
            deltaReserved := 0
            reason := .SETTLEMENT_LOSS
            refType := some "market"
            refId := some marketId }
      { ledgerEntries := entry :: r.ledgerEntries
        positionUpdates :=
          { userId := position.userId
            marketId := position.marketId
            outcome := position.outcome
            newShares := 0
            newReservedShares := 0 } :: r.positionUpdates }

/-- Input to the trade settlement calculator. -/
structure TradeSettlementInput where
  tradeId : String
  marketId : String
  outcome : Outcome
  makerOrderId : String
  takerOrderId : String
  makerUserId : String
  takerUserId : String
  makerSide : OrderSide
  price : ℚ
  quantity : ℚ
  takerFee : ℚ
  deriving DecidableEq

/-- Position delta produced by the trade settlement calculator. -/
structure TradePositionUpdate where
  userId : String
  marketId : String
  outcome : Outcome
  deltaShares : ℚ
  deltaReservedShares : ℚ
  tradePrice : ℚ
  deriving DecidableEq

structure TradeSettlementResult where
  ledgerEntries : List LedgerEntryInput
  positionUpdates : List TradePositionUpdate
  deriving DecidableEq

/-- Ledger entries and position updates for one matched trade, exactly as
the settlement calculator in the engine package produces them. -/
def calculateTradeSettlement (trade : TradeSettlementInput) : TradeSettlementResult :=
  let tradeValue := trade.quantity * trade.price
  let netToSeller := tradeValue - trade.takerFee
  if trade.makerSide = .SELL then
    -- Taker is the buyer: consume reserved funds, pay the fee, get shares;
    -- the maker (seller) gives up reserved shares and is credited net of fee.
    { ledgerEntries :=
        [ { userId := trade.takerUserId
            deltaAvailable := 0
            deltaReserved := -tradeValue
            reason := .TRADE_BUY
            refType := some "trade"
            refId := some trade.tradeId } ]
        ++ (if 0 < trade.takerFee then
              [ { userId := trade.takerUserId
                  deltaAvailable := -trade.takerFee
                  deltaReserved := 0
                  reason := .TRADE_FEE
                  refType := some "trade"
                  refId := some trade.tradeId },
                { userId := SYSTEM_USER_ID
                  deltaAvailable := trade.takerFee
                  deltaReserved := 0
                  reason := .TRADE_FEE
                  refType := some "trade"
                  refId := some trade.tradeId } ]
            else [])
        ++ [ { userId := trade.makerUserId
               deltaAvailable := netToSeller
               deltaReserved := 0
               reason := .TRADE_SELL
               refType := some "trade"
               refId := some trade.tradeId } ]
      positionUpdates :=
        [ { userId := trade.takerUserId
            marketId := trade.marketId
            outcome := trade.outcome
            deltaShares := trade.quantity
            deltaReservedShares := 0
            tradePrice := trade.price },
          { userId := trade.makerUserId
            marketId := trade.marketId
            outcome := trade.outcome
            deltaShares := -trade.quantity
            deltaReservedShares := -trade.quantity
            tradePrice := trade.price } ] }
  else
    -- Maker is the buyer, taker is the seller.
    { ledgerEntries :=
        [ { userId := trade.makerUserId
            deltaAvailable := 0
            deltaReserved := -tradeValue
            reason := .TRADE_BUY
            refType := some "trade"
            refId := some trade.tradeId },
          { userId := trade.takerUserId
            deltaAvailable := netToSeller
            deltaReserved := 0
            reason := .TRADE_SELL
            refType := some "trade"
            refId := some trade.tradeId } ]
        ++ (if 0 < trade.takerFee then
              [ { userId := SYSTEM_USER_ID
                  deltaAvailable := trade.takerFee
                  deltaReserved := 0
                  reason := .TRADE_FEE
                  refType := some "trade"
                  refId := some trade.tradeId } ]
            else [])
      positionUpdates :=
        [ { userId := trade.makerUserId
            marketId := trade.marketId
            outcome := trade.outcome
            deltaShares := trade.quantity
            deltaReservedShares := 0
            tradePrice := trade.price },
          { userId := trade.takerUserId
            marketId := trade.marketId
            outcome := trade.outcome
            deltaShares := -trade.quantity
            deltaReservedShares := -trade.quantity
            tradePrice := trade.price } ] }

structure ReserveForBuyResult where
  ledgerEntry : LedgerEntryInput
  reserveAmount : ℚ
  deriving DecidableEq

/-- Reservation needed for a BUY order. -/
def calculateBuyReserve (userId orderId : String) (price quantity : ℚ) :
    ReserveForBuyResult :=
  let reserveAmount := price * quantity
  { ledgerEntry :=
      { userId := userId
        deltaAvailable := -reserveAmount
        deltaReserved := reserveAmount
        reason := .ORDER_RESERVE
        refType := some "order"
        refId := some orderId }
    reserveAmount := reserveAmount }

/-- Release for a cancelled or expired order. -/
def calculateOrderRelease (userId orderId : String)
    (price remainingQuantity : ℚ) : LedgerEntryInput :=
  let releaseAmount := price * remainingQuantity
  { userId := userId
    deltaAvailable := releaseAmount
    deltaReserved := -releaseAmount
    reason := .ORDER_RESERVE_RELEASE
    refType := some "order"
    refId := some orderId }

/-- Sum of `deltaAvailable + deltaReserved` over the ledger entries of a
trade settlement. -/
def tradeLedgerDeltaSum (r : TradeSettlementResult) : ℚ :=
  (r.ledgerEntries.map (fun e => e.deltaAvailable + e.deltaReserved)).sum

/-- Order as stored in the in-memory matching engine. -/
structure EngineOrder where
  id : String
  userId : String
  marketId : String
  outcome : Outcome
  side : OrderSide
  price : ℚ
  quantity : ℚ
  remaining : ℚ
  createdAt : ℕ
  deriving DecidableEq

/-- Match produced by the engine. -/
structure MatchResult where
  makerOrderId : String
  takerOrderId : String
  makerUserId : String
  takerUserId : String
  price : ℚ
  quantity : ℚ
  takerFee : ℚ
  deriving DecidableEq

/-- In-memory matching engine for one market outcome: resting BUY orders
(bids), resting SELL orders (asks), and the configured taker fee rate. -/
structure MatchingEngine where
  buyOrders : List EngineOrder
  sellOrders : List EngineOrder
  takerFeeRate : ℚ
  deriving DecidableEq

def mkEngine (feeRate : ℚ) : MatchingEngine :=
  { buyOrders := [], sellOrders := [], takerFeeRate := feeRate }

/-- Matching loop for a BUY taker: while the taker has remaining quantity
and the best ask is priced at or below the taker's limit, trade at the
maker's price for `min` of the remainings; a fully consumed maker is
removed from the book.  When the maker is only partially consumed the
taker's remaining has reached zero, so the loop exits with the reduced
maker left at the head. -/
def matchBuyLoop (feeRate : ℚ) (taker : EngineOrder) :
    List EngineOrder → List MatchResult × EngineOrder × List EngineOrder
  | [] => ([], taker, [])
  | maker :: rest =>
    if 0 < taker.remaining ∧ maker.price ≤ taker.price then
      let matchQty := min taker.remaining maker.remaining
      let tradeValue := matchQty * maker.price
      let m : MatchResult :=
        { makerOrderId := maker.id
          takerOrderId := taker.id
          makerUserId := maker.userId
          takerUserId := taker.userId
          price := maker.price
          quantity := matchQty
          takerFee := calculateTakerFee tradeValue feeRate }
      let taker' := { taker with remaining := taker.remaining - matchQty }
      let maker' := { maker with remaining := maker.remaining - matchQty }
      if maker'.remaining = 0 then
        let res := matchBuyLoop feeRate taker' rest
        (m :: res.1, res.2.1, res.2.2)
      else
        ([m], taker', maker' :: rest)
    else
      ([], taker, maker :: rest)

/-- Matching loop for a SELL taker against the bids, symmetric to
`matchBuyLoop`: it crosses while the best bid is at or above the taker's
limit. -/
def matchSellLoop (feeRate : ℚ) (taker : EngineOrder) :
    List EngineOrder → List MatchResult × EngineOrder × List EngineOrder
  | [] => ([], taker, [])
  | maker :: rest =>
    if 0 < taker.remaining ∧ taker.price ≤ maker.price then
      let matchQty := min taker.remaining maker.remaining
      let tradeValue := matchQty * maker.price
      let m : MatchResult :=
        { makerOrderId := maker.id
          takerOrderId := taker.id
          makerUserId := maker.userId
          takerUserId := taker.userId
          price := maker.price
          quantity := matchQty
          takerFee := calculateTakerFee tradeValue feeRate }
      let taker' := { taker with remaining := taker.remaining - matchQty }
      let maker' := { maker with remaining := maker.remaining - matchQty }
      if maker'.remaining = 0 then
        let res := matchSellLoop feeRate taker' rest
        (m :: res.1, res.2.1, res.2.2)
      else
        ([m], taker', maker' :: rest)
    else
      ([], taker, maker :: rest)

/-- Predicate deciding whether the incoming order is inserted before a
given resting bid: the resting bid has a strictly lower price, or the
same price and a strictly later creation time. -/
def bidInsertBefore (order existing : EngineOrder) : Bool :=
  decide (existing.price < order.price) ||
    (decide (existing.price = order.price) &&
      decide (order.createdAt < existing.createdAt))

/-- Predicate deciding whether the incoming order is inserted before a
given resting ask: the resting ask has a strictly higher price, or the
same price and a strictly later creation time. -/
def askInsertBefore (order existing : EngineOrder) : Bool :=
  decide (order.price < existing.price) ||
    (decide (existing.price = order.price) &&
      decide (order.createdAt < existing.createdAt))

/-- Insert into the bid list, keeping price descending then time
ascending; an equal-priority resting order stays in front. -/
def insertBuyOrder : List EngineOrder → EngineOrder → List EngineOrder
  | [], order => [order]
  | existing :: rest, order =>
    if bidInsertBefore order existing then order :: existing :: rest
    else existing :: insertBuyOrder rest order

/-- Insert into the ask list, keeping price ascending then time
ascending; an equal-priority resting order stays in front. -/
def insertSellOrder : List EngineOrder → EngineOrder → List EngineOrder
  | [], order => [order]
  | existing :: rest, order =>
    if askInsertBefore order existing then order :: existing :: rest
    else existing :: insertSellOrder rest order

structure AddOrderResult where
  engine : MatchingEngine
  «matches» : List MatchResult
  remainingOrder : Option EngineOrder
  deriving DecidableEq

/-- Add an order and attempt to match: run the side's matching loop,
insert any strictly positive residual into the order's own side, and
report the matches together with the residual (none when filled). -/
def MatchingEngine.addOrder (st : MatchingEngine) (order : EngineOrder) :
    AddOrderResult :=
  if order.side = .BUY then
    let res := matchBuyLoop st.takerFeeRate order st.sellOrders
    let current := res.2.1
    if 0 < current.remaining then
      { engine :=
          { st with
            sellOrders := res.2.2
            buyOrders := insertBuyOrder st.buyOrders current }
        «matches» := res.1
        remainingOrder := some current }
    else
      { engine := { st with sellOrders := res.2.2 }
        «matches» := res.1
        remainingOrder := if current.remaining = 0 then none else some current }
  else
    let res := matchSellLoop st.takerFeeRate order st.buyOrders
    let current := res.2.1
    if 0 < current.remaining then
      { engine :=
          { st with
            buyOrders := res.2.2
            sellOrders := insertSellOrder st.sellOrders current }
        «matches» := res.1
        remainingOrder := some current }
    else
      { engine := { st with buyOrders := res.2.2 }
        «matches» := res.1
        remainingOrder := if current.remaining = 0 then none else some current }

/-- Remove the first order with the given id, returning it (or none)
together with the list without it. -/
def removeOrderById : List EngineOrder → String → Option EngineOrder × List EngineOrder
  | [], _ => (none, [])
  | o :: rest, targetId =>
    if o.id = targetId then (some o, rest)
    else
      let r := removeOrderById rest targetId
      (r.1, o :: r.2)

/-- Cancel an order by id: try the bid side first, then the ask side. -/
def MatchingEngine.cancelOrder (st : MatchingEngine) (orderId : String) :
    MatchingEngine × Option EngineOrder :=
  let rb := removeOrderById st.buyOrders orderId
  match rb.1 with
  | some o => ({ st with buyOrders := rb.2 }, some o)
  | none =>
    let rs := removeOrderById st.sellOrders orderId
    match rs.1 with
    | some o => ({ st with sellOrders := rs.2 }, some o)
    | none => (st, none)

/-- Key of a position row: user, market, outcome. -/
structure PositionKey where
  userId : String
  marketId : String
  outcome : Outcome
  deriving DecidableEq

/-- Database-backed state touched by the transactional helpers: the
balance projection, the append-only ledger, and the position rows. -/
structure DbState where
  balances : List (String × BalanceState)
  ledgerEntries : List LedgerEntryInput
  positions : List (PositionKey × PositionState)
  deriving DecidableEq

def lookupBalance (balances : List (String × BalanceState)) (userId : String) :
    Option BalanceState :=
  (balances.find? (fun b => b.1 = userId)).map (fun b => b.2)

def setBalance : List (String × BalanceState) → String → BalanceState →
    List (String × BalanceState)
  | [], userId, b => [(userId, b)]
  | (v, c) :: rest, userId, b =>
    if v = userId then (userId, b) :: rest else (v, c) :: setBalance rest userId b

def lookupPosition (positions : List (PositionKey × PositionState))
    (key : PositionKey) : Option PositionState :=
  (positions.find? (fun p => p.1 = key)).map (fun p => p.2)

def setPosition : List (PositionKey × PositionState) → PositionKey → PositionState →
    List (PositionKey × PositionState)
  | [], key, p => [(key, p)]
  | (k, c) :: rest, key, p =>
    if k = key then (key, p) :: rest else (k, c) :: setPosition rest key p

/-- Input accepted by the transactional ledger application helper. -/
structure ApplyLedgerInput where
  userId : String
  deltaAvailable : ℚ
  deltaReserved : ℚ
  reason : LedgerReason
  refType : Option String := none
  refId : Option String := none
  deriving DecidableEq

/-- Apply a ledger entry within a transaction: read the current balance
(upserting a zero row when absent), add the deltas, reject when either
result would be negative, otherwise append the entry and write the new
balance.  An error aborts the transaction, so no state is returned. -/
def applyLedger (db : DbState) (input : ApplyLedgerInput) : Except String DbState :=
  let balance := (lookupBalance db.balances input.userId).getD { available := 0, reserved := 0 }
  let newAvailable := balance.available + input.deltaAvailable
  let newReserved := balance.reserved + input.deltaReserved
  if newAvailable < 0 then
    .error "Insufficient available balance"
  else if newReserved < 0 then
    .error "Insufficient reserved balance"
  else
    .ok { db with
      ledgerEntries := db.ledgerEntries ++
        [ { userId := input.userId
            deltaAvailable := input.deltaAvailable
            deltaReserved := input.deltaReserved
            reason := input.reason
            refType := input.refType
            refId := input.refId } ]
      balances := setBalance db.balances input.userId
        { available := newAvailable, reserved := newReserved } }

/-- Input accepted by the transactional position update helper. -/
structure UpdatePositionInput where
  userId : String
  marketId : String
  outcome : Outcome
  deltaShares : ℚ
  deltaReservedShares : ℚ
  tradePrice : Option ℚ := none
  deriving DecidableEq

/-- Update a position row within a transaction: read the row (upserting a
zero row when absent), add the share deltas, reject on a negative result
or when reserved shares would exceed total shares, and recompute the
weighted-average price only for a buy (positive share delta with a trade
price supplied). -/
def updatePosition (db : DbState) (input : UpdatePositionInput) : Except String DbState :=
  let key : PositionKey :=
    { userId := input.userId, marketId := input.marketId, outcome := input.outcome }
  let position := (lookupPosition db.positions key).getD
    { shares := 0, reservedShares := 0, avgPrice := 0 }
  let newShares := position.shares + input.deltaShares
  let newReserved := position.reservedShares + input.deltaReservedShares
  if newShares < 0 then
    .error "Insufficient shares"
  else if newReserved < 0 then
    .error "Insufficient reserved shares"
  else if newShares < newReserved then
    .error "Reserved shares cannot exceed total shares"
  else
    let newAvgPrice :=
      match input.tradePrice with
      | some tradePrice =>
        if 0 < input.deltaShares then
          if newShares = 0 then 0
          else (position.shares * position.avgPrice +
            input.deltaShares * tradePrice) / newShares
        else position.avgPrice
      | none => position.avgPrice
    .ok { db with
      positions := setPosition db.positions key
        { shares := newShares, reservedShares := newReserved, avgPrice := newAvgPrice } }

/-- Order row as persisted by the API. -/
structure OrderRow where
  id : String
  userId : String
  marketId : String
  outcome : Outcome
  side : OrderSide
  price : ℚ
  quantity : ℚ
  remaining : ℚ
  status : OrderStatus
  createdAt : ℕ
  deriving DecidableEq

def updateOrderRow (orders : List OrderRow) (orderId : String)
    (f : OrderRow → OrderRow) : List OrderRow :=
  orders.map (fun o => if o.id = orderId then f o else o)

/-- State of the API for one market: the database state, the persisted
order rows, the market status, and the two in-memory books. -/
structure ApiState where
  db : DbState
  orders : List OrderRow
  market : MarketStatus
  bookYES : MatchingEngine
  bookNO : MatchingEngine
  deriving DecidableEq

def ApiState.book (st : ApiState) (outcome : Outcome) : MatchingEngine :=
  if outcome = .YES then st.bookYES else st.bookNO

def ApiState.setBook (st : ApiState) (outcome : Outcome) (engine : MatchingEngine) :
    ApiState :=
  if outcome = .YES then { st with bookYES := engine } else { st with bookNO := engine }

/-- Request to place an order; `orderId` is the id the database assigns
to the created row and `now` its creation timestamp. -/
structure PlaceOrderInput where
  userId : String
  outcome : Outcome
  side : OrderSide
  price : ℚ
  quantity : ℚ
  orderId : String
  now : ℕ
  deriving DecidableEq

/-- First transaction of order placement: the funds or share check, the
order row creation in OPEN with full remaining, and the reservation. -/
def placeOrderReserveTx (st : ApiState) (marketId : String) (req : PlaceOrderInput) :
    Except String ApiState :=
  let order : OrderRow :=
    { id := req.orderId
      userId := req.userId
      marketId := marketId
      outcome := req.outcome
      side := req.side
      price := req.price
      quantity := req.quantity
      remaining := req.quantity
      status := .OPEN
      createdAt := req.now }
  match req.side with
  | .BUY =>
    let balance := (lookupBalance st.db.balances req.userId).getD
      { available := 0, reserved := 0 }
    let requiredAmount := req.price * req.quantity
    if balance.available < requiredAmount then
      .error "Insufficient funds"
    else
      let reserveCalc := calculateBuyReserve req.userId req.orderId req.price req.quantity
      (applyLedger st.db
        { userId := req.userId
          deltaAvailable := reserveCalc.ledgerEntry.deltaAvailable
          deltaReserved := reserveCalc.ledgerEntry.deltaReserved
          reason := .ORDER_RESERVE
          refType := some "order"
          refId := some req.orderId }).map
        (fun db => { st with db := db, orders := st.orders ++ [order] })
  | .SELL =>
    let position := (lookupPosition st.db.positions
      { userId := req.userId, marketId := marketId, outcome := req.outcome }).getD
      { shares := 0, reservedShares := 0, avgPrice := 0 }
    let availableShares := position.shares - position.reservedShares
    if availableShares < req.quantity then
      .error "Insufficient shares"
    else
      (updatePosition st.db
        { userId := req.userId
          marketId := marketId
          outcome := req.outcome
          deltaShares := 0
          deltaReservedShares := req.quantity
          tradePrice := none }).map
        (fun db => { st with db := db, orders := st.orders ++ [order] })

/-- Trade ids are assigned by the database on insert; the embedding forms
them from the two order ids. -/
def tradeIdFor (m : MatchResult) : String :=
  "trade:" ++ m.makerOrderId ++ ":" ++ m.takerOrderId

/-- Transaction run for a single match: create the trade, look up the
maker order for its side, compute the trade settlement, apply its ledger
entries and position updates, and update both order rows' remaining and
status.  `takerFilled` tells whether the engine reported no residual for
the taker order. -/
def processMatch (marketId : String) (outcome : Outcome) (takerFilled : Bool)
    (st : ApiState) (m : MatchResult) : Except String ApiState := do
  let makerOrder ← match st.orders.find? (fun o => o.id = m.makerOrderId) with
    | some o => pure o
    | none => throw "Maker order not found"
  let settlement := calculateTradeSettlement
    { tradeId := tradeIdFor m
      marketId := marketId
      outcome := outcome
      makerOrderId := m.makerOrderId
      takerOrderId := m.takerOrderId
      makerUserId := m.makerUserId
      takerUserId := m.takerUserId
      makerSide := makerOrder.side
      price := m.price
      quantity := m.quantity
      takerFee := m.takerFee }
  let db1 ← settlement.ledgerEntries.foldlM
    (fun db e => applyLedger db
      { userId := e.userId
        deltaAvailable := e.deltaAvailable
        deltaReserved := e.deltaReserved
        reason := e.reason
        refType := e.refType
        refId := e.refId }) st.db
  let db2 ← settlement.positionUpdates.foldlM
    (fun db p => updatePosition db
      { userId := p.userId
        marketId := p.marketId
        outcome := p.outcome
        deltaShares := p.deltaShares
        deltaReservedShares := p.deltaReservedShares
        tradePrice := some p.tradePrice }) db1
  let orders1 := updateOrderRow st.orders m.makerOrderId (fun o =>
    { o with
      remaining := o.remaining - m.quantity
      status := if m.quantity = makerOrder.remaining then .FILLED else .PARTIAL })
  let orders2 := updateOrderRow orders1 m.takerOrderId (fun o =>
    { o with
      remaining := o.remaining - m.quantity
      status := if takerFilled then .FILLED else .PARTIAL })
  pure { st with db := db2, orders := orders2 }

/-- Process the produced matches in order, one transaction each: a failed
transaction leaves its own changes unapplied and stops the loop, but the
transactions already committed stay. -/
def processMatches (marketId : String) (outcome : Outcome) (takerFilled : Bool) :
    ApiState → List MatchResult → ApiState × Option String
  | st, [] => (st, none)
  | st, m :: rest =>
    match processMatch marketId outcome takerFilled st m with
    | .error e => (st, some e)
    | .ok st' => processMatches marketId outcome takerFilled st' rest

/-- Order placement route: market-open check, reservation transaction,
in-memory matching, one transaction per match, and a final status write
when the taker was fully filled. -/
def placeOrder (st : ApiState) (marketId : String) (req : PlaceOrderInput) :
    ApiState × Option String :=
  if st.market ≠ .OPEN then (st, some "Market is not open")
  else
    match placeOrderReserveTx st marketId req with
    | .error e => (st, some e)
    | .ok st1 =>
      let add := (st1.book req.outcome).addOrder
        { id := req.orderId
          userId := req.userId
          marketId := marketId
          outcome := req.outcome
          side := req.side
          price := req.price
          quantity := req.quantity
          remaining := req.quantity
          createdAt := req.now }
      let st2 := st1.setBook req.outcome add.engine
      let takerFilled := add.remainingOrder.isNone
      let res := processMatches marketId req.outcome takerFilled st2 add.«matches»
      match res.2 with
      | some e => (res.1, some e)
      | none =>
        if takerFilled then
          ({ res.1 with
              orders := updateOrderRow res.1.orders req.orderId
                (fun o => { o with status := .FILLED, remaining := 0 }) }, none)
        else (res.1, none)

/-- Order cancel route: ownership and status checks, then one transaction
setting the row CANCELLED and releasing the reservation (funds for a BUY,
reserved shares for a SELL).  The in-memory book is not touched: the
source leaves removal from the book as a TODO. -/
def cancelOrderRoute (st : ApiState) (orderId callerId : String) (isAdmin : Bool) :
    ApiState × Option String :=
  match st.orders.find? (fun o => o.id = orderId) with
  | none => (st, some "Order not found")
  | some order =>
    if order.userId ≠ callerId ∧ isAdmin = false then (st, some "Not your order")
    else if order.status ≠ .OPEN ∧ order.status ≠ .PARTIAL then
      (st, some "Order cannot be cancelled")
    else
      let orders := updateOrderRow st.orders orderId
        (fun o => { o with status := .CANCELLED })
      let tx : Except String ApiState :=
        match order.side with
        | .BUY =>
          let releaseEntry := calculateOrderRelease order.userId order.id
            order.price order.remaining
          (applyLedger st.db
            { userId := order.userId
              deltaAvailable := releaseEntry.deltaAvailable
              deltaReserved := releaseEntry.deltaReserved
              reason := .ORDER_RESERVE_RELEASE
              refType := some "order"
              refId := some order.id }).map
            (fun db => { st with db := db, orders := orders })
        | .SELL =>
          (updatePosition st.db
            { userId := order.userId
              marketId := order.marketId
              outcome := order.outcome
              deltaShares := 0
              deltaReservedShares := -order.remaining
              tradePrice := none }).map
            (fun db => { st with db := db, orders := orders })
      match tx with
      | .ok st' => (st', none)
      | .error e => (st, some e)

/-- Position write performed by the market resolution route for each
settlement position update: only the shares and reservedShares columns
are written, the avgPrice column is left as it was. -/
def resolveClearPosition (p : PositionState) (u : SettlementPositionUpdate) :
    PositionState :=
  { p with shares := u.newShares, reservedShares := u.newReservedShares }

/-- Scenario S1 seed: user A has 1000 available, user B holds 100 YES
shares in market M, the fee rate is the default 1 percent. -/
def s1Seed : ApiState :=
  { db :=
      { balances :=
          [ ("A", { available := 1000, reserved := 0 }),
            ("B", { available := 0, reserved := 0 }) ]
        ledgerEntries := []
        positions :=
          [ ({ userId := "B", marketId := "M", outcome := .YES },
             { shares := 100, reservedShares := 0, avgPrice := 0 }) ] }
    orders := []
    market := .OPEN
    bookYES := mkEngine defaultTakerFeeRate
    bookNO := mkEngine defaultTakerFeeRate }

/-- Scenario S1 first event: B places SELL 50 YES at 0.55. -/
def s1SellReq : PlaceOrderInput :=
  { userId := "B", outcome := .YES, side := .SELL, price := 11/20, quantity := 50
    orderId := "oB", now := 1 }

/-- Scenario S1 second event: A places BUY 50 YES at 0.60. -/
def s1BuyReq : PlaceOrderInput :=
  { userId := "A", outcome := .YES, side := .BUY, price := 3/5, quantity := 50
    orderId := "oA", now := 2 }

def s1AfterSell : ApiState × Option String := placeOrder s1Seed "M" s1SellReq

def s1Final : ApiState × Option String := placeOrder s1AfterSell.1 "M" s1BuyReq

section

attribute [local semireducible] Rat.add Rat.mul Rat.sub Rat.inv

/-- Trade input with a SELL maker, price 0.5, quantity 100 and the
1-percent taker fee 0.5 on the trade value of 50 (the same trade the
engine test suite uses). -/
def c1SellMakerTrade : TradeSettlementInput :=
  { tradeId := "trade1"
    marketId := "market1"
    outcome := .YES
    makerOrderId := "sell1"
    takerOrderId := "buy1"
    makerUserId := "seller"
    takerUserId := "buyer"
    makerSide := .SELL
    price := 1/2
    quantity := 100
    takerFee := 1/2 }

/-- The same trade with a BUY maker. -/
def c1BuyMakerTrade : TradeSettlementInput :=
  { c1SellMakerTrade with
    makerOrderId := "buy1"
    takerOrderId := "sell1"
    makerUserId := "buyer"
    takerUserId := "seller"
    makerSide := .BUY }

/-- C1 counterexample: for the SELL-maker trade at price 0.5, quantity
100, taker fee 0.5 (the fee rate times the trade value), the ledger
entries of `calculateTradeSettlement` sum to -0.5, not 0: the taker is
charged the fee and the maker is also credited only net of fee. -/
theorem calculateTradeSettlement_sum_ne_zero :
    tradeLedgerDeltaSum (calculateTradeSettlement c1SellMakerTrade) ≠ 0 := by
  decide

/-- C1 amended: the ledger entries of `calculateTradeSettlement` sum to 0
when the maker side is BUY (for any nonnegative taker fee), but to minus
the taker fee when the maker side is SELL, because that branch both
charges the taker the fee and credits the maker net of the fee. -/
theorem calculateTradeSettlement_sum (trade : TradeSettlementInput) :
    (trade.makerSide = .BUY → 0 ≤ trade.takerFee →
      tradeLedgerDeltaSum (calculateTradeSettlement trade) = 0) ∧
    (trade.makerSide = .SELL →
      tradeLedgerDeltaSum (calculateTradeSettlement trade) = -trade.takerFee) := by
  unfold tradeLedgerDeltaSum calculateTradeSettlement
  constructor
  · intro hside hfee
    rw [hside]
    by_cases hf : (0 : ℚ) < trade.takerFee
    · simp [hf]
    · have h0 : trade.takerFee = 0 := le_antisymm (not_lt.mp hf) hfee
      simp [hf, h0]
  · intro hside
    rw [hside]
    by_cases hf : (0 : ℚ) < trade.takerFee
    · simp [hf]
    · simp [hf]
      ring

/-- Witness for the amended C1 statement at the two concrete trades. -/
theorem calculateTradeSettlement_sum_witness :
    tradeLedgerDeltaSum (calculateTradeSettlement c1BuyMakerTrade) = 0 ∧
    tradeLedgerDeltaSum (calculateTradeSettlement c1SellMakerTrade) =
      -c1SellMakerTrade.takerFee :=
  ⟨(calculateTradeSettlement_sum c1BuyMakerTrade).1 rfl (by decide),
   (calculateTradeSettlement_sum c1SellMakerTrade).2 rfl⟩

/-- C2: running scenario S1 through the embedded order placement flow
(B sells 50 YES at 0.55, A buys 50 YES at 0.60, filling at 0.55 with fee
0.275): both events succeed, B gains 27.225 available, SYSTEM gains
0.275, A holds 50 YES shares at average price 0.55 and B keeps 50 free
shares — but A ends with available 969.725 and reserved 2.5: the excess
reservation of 2.5 (reserved at the 0.60 limit, filled at 0.55) is never
released, instead of the specified available 972.225 and reserved 0. -/
theorem s1_final_state :
    s1AfterSell.2 = none ∧ s1Final.2 = none ∧
    lookupBalance s1Final.1.db.balances "A" =
      some { available := 969725/1000, reserved := 5/2 } ∧
    lookupBalance s1Final.1.db.balances "B" =
      some { available := 27225/1000, reserved := 0 } ∧
    lookupBalance s1Final.1.db.balances SYSTEM_USER_ID =
      some { available := 275/1000, reserved := 0 } ∧
    lookupPosition s1Final.1.db.positions
      { userId := "A", marketId := "M", outcome := .YES } =
      some { shares := 50, reservedShares := 0, avgPrice := 55/100 } ∧
    lookupPosition s1Final.1.db.positions
      { userId := "B", marketId := "M", outcome := .YES } =
      some { shares := 50, reservedShares := 0, avgPrice := 0 } := by
  decide

/-- State after B's resting sell of scenario S1 is cancelled through the
cancel route. -/
def c6AfterCancel : ApiState × Option String :=
  cancelOrderRoute s1AfterSell.1 "oB" "B" false

/-- A's crossing buy from scenario S1, as handed to the engine. -/
def c6BuyEngineOrder : EngineOrder :=
  { id := "oA"
    userId := "A"
    marketId := "M"
    outcome := .YES
    side := .BUY
    price := 3/5
    quantity := 50
    remaining := 50
    createdAt := 2 }

/-- C6: after a successful cancel of B's resting sell, the order row is
CANCELLED, yet the in-memory book still contains the order (the cancel
route never removes it); a subsequent crossing buy produces a match whose
maker is the cancelled order, and the full placement route then aborts
with an invariant error when it tries to consume the already released
reserved shares. -/
theorem cancelled_order_still_matches :
    c6AfterCancel.2 = none ∧
    c6AfterCancel.1.orders.map (fun o => (o.id, o.status)) =
      [("oB", .CANCELLED)] ∧
    c6AfterCancel.1.bookYES.sellOrders.map (fun o => o.id) = ["oB"] ∧
    ((c6AfterCancel.1.bookYES.addOrder c6BuyEngineOrder).«matches»).map
      (fun m => m.makerOrderId) = ["oB"] ∧
    (placeOrder c6AfterCancel.1 "M" s1BuyReq).2 =
      some "Insufficient reserved shares" := by
  decide

/-- Every match the BUY loop produces names a maker from the pre-state
ask list and carries that maker's price. -/
theorem matchBuyLoop_maker_price (feeRate : ℚ) :
    ∀ (asks : List EngineOrder) (taker : EngineOrder) (m : MatchResult),
      m ∈ (matchBuyLoop feeRate taker asks).1 →
      ∃ maker, maker ∈ asks ∧ maker.id = m.makerOrderId ∧ m.price = maker.price ∧
        maker.userId = m.makerUserId ∧ m.takerOrderId = taker.id := by
  intro asks
  induction asks with
  | nil =>
    intro taker m hm
    simp [matchBuyLoop] at hm
  | cons maker rest ih =>
    intro taker m hm
    rw [matchBuyLoop] at hm
    split at hm
    · dsimp only at hm
      split at hm
      · rcases List.mem_cons.mp hm with h | h
        · subst h
          exact ⟨maker, List.mem_cons_self _ _, rfl, rfl, rfl, rfl⟩
        · obtain ⟨mk, hmk, h1, h2, h3, h4⟩ := ih _ m h
          exact ⟨mk, List.mem_cons_of_mem _ hmk, h1, h2, h3, h4⟩
      · rcases List.mem_singleton.mp hm with h
        subst h
        exact ⟨maker, List.mem_cons_self _ _, rfl, rfl, rfl, rfl⟩
    · simp at hm

/-- Every match the SELL loop produces names a maker from the pre-state
bid list and carries that maker's price. -/
theorem matchSellLoop_maker_price (feeRate : ℚ) :
    ∀ (bids : List EngineOrder) (taker : EngineOrder) (m : MatchResult),
      m ∈ (matchSellLoop feeRate taker bids).1 →
      ∃ maker, maker ∈ bids ∧ maker.id = m.makerOrderId ∧ m.price = maker.price ∧
        maker.userId = m.makerUserId ∧ m.takerOrderId = taker.id := by
  intro bids
  induction bids with
  | nil =>
    intro taker m hm
    simp [matchSellLoop] at hm
  | cons maker rest ih =>
    intro taker m hm
    rw [matchSellLoop] at hm
    split at hm
    · dsimp only at hm
      split at hm
      · rcases List.mem_cons.mp hm with h | h
        · subst h
          exact ⟨maker, List.mem_cons_self _ _, rfl, rfl, rfl, rfl⟩
        · obtain ⟨mk, hmk, h1, h2, h3, h4⟩ := ih _ m h
          exact ⟨mk, List.mem_cons_of_mem _ hmk, h1, h2, h3, h4⟩
      · rcases List.mem_singleton.mp hm with h
        subst h
        exact ⟨maker, List.mem_cons_self _ _, rfl, rfl, rfl, rfl⟩
    · simp at hm

/-- C3: every match produced by `addOrder` executes at the resting maker
order's price: the match names a maker that was resting on the opposite
side of the book, and the match price equals that maker's limit price
(never the incoming taker's price when the two differ). -/
theorem addOrder_match_at_maker_price (st : MatchingEngine) (o : EngineOrder)
    (m : MatchResult) (hm : m ∈ (st.addOrder o).«matches») :
    ∃ maker, maker ∈ (if o.side = .BUY then st.sellOrders else st.buyOrders) ∧
      maker.id = m.makerOrderId ∧ m.price = maker.price ∧
      maker.userId = m.makerUserId ∧ m.takerOrderId = o.id := by
  unfold MatchingEngine.addOrder at hm
  by_cases hs : o.side = .BUY
  · rw [if_pos hs] at hm
    rw [if_pos hs]
    have hm' : m ∈ (matchBuyLoop st.takerFeeRate o st.sellOrders).1 := by
      dsimp only at hm
      split at hm <;> exact hm
    exact matchBuyLoop_maker_price _ _ _ _ hm'
  · rw [if_neg hs] at hm
    rw [if_neg hs]
    have hm' : m ∈ (matchSellLoop st.takerFeeRate o st.buyOrders).1 := by
      dsimp only at hm
      split at hm <;> exact hm
    exact matchSellLoop_maker_price _ _ _ _ hm'

/-- Book with one resting ask at 0.50 for the maker-price witness. -/
def c3Ask : EngineOrder :=
  { id := "mk"
    userId := "S"
    marketId := "M"
    outcome := .YES
    side := .SELL
    price := 1/2
    quantity := 10
    remaining := 10
    createdAt := 0 }

def c3Engine : MatchingEngine :=
  { buyOrders := [], sellOrders := [c3Ask], takerFeeRate := 1/100 }

/-- Incoming buy at 0.60 crossing the 0.50 ask. -/
def c3Taker : EngineOrder :=
  { id := "tk"
    userId := "T"
    marketId := "M"
    outcome := .YES
    side := .BUY
    price := 3/5
    quantity := 4
    remaining := 4
    createdAt := 1 }

/-- Witness for the maker-price theorem: the match of the concrete cross
carries the maker's 0.50, not the taker's 0.60. -/
theorem addOrder_match_at_maker_price_witness :
    ∃ maker,
      maker ∈ (if c3Taker.side = .BUY then c3Engine.sellOrders else c3Engine.buyOrders) ∧
      maker.id = "mk" ∧ (1 : ℚ)/2 = maker.price ∧
      maker.userId = "S" ∧ "tk" = c3Taker.id := by
  have h := addOrder_match_at_maker_price c3Engine c3Taker
    { makerOrderId := "mk"
      takerOrderId := "tk"
      makerUserId := "S"
      takerUserId := "T"
      price := 1/2
      quantity := 4
      takerFee := 4 * (1/2) * (1/100) } (by decide)
  exact h

/-- C9: reserve-then-release is the identity, so placing an order that
matches nothing and cancelling it restores the pre-placement state and
charges no fee.  For a BUY at price p and quantity q, the ORDER_RESERVE
delta followed by the ORDER_RESERVE_RELEASE delta for the full remaining
returns the original balance; for a SELL, reserving q shares and then
releasing q reserved shares returns the original position. -/
theorem place_then_cancel_identity :
    (∀ (b : BalanceState) (userId orderId : String) (price quantity : ℚ),
      0 ≤ b.available → 0 ≤ b.reserved → 0 ≤ price * quantity →
      price * quantity ≤ b.available →
      (applyLedgerEntry b
          (calculateBuyReserve userId orderId price quantity).ledgerEntry).bind
        (fun b' => applyLedgerEntry b'
          (calculateOrderRelease userId orderId price quantity)) = .ok b) ∧
    (∀ (p : PositionState) (quantity : ℚ),
      0 ≤ p.reservedShares → 0 ≤ quantity →
      p.reservedShares + quantity ≤ p.shares →
      (reserveShares p quantity).bind
        (fun p' => releaseReservedShares p' quantity) = .ok p) := by
  constructor
  · intro b userId orderId price quantity ha hr hpq hle
    unfold applyLedgerEntry calculateBuyReserve calculateOrderRelease
      validateBalanceState
    dsimp only
    rw [if_neg (by linarith), if_neg (by linarith)]
    simp only [Except.bind]
    rw [if_neg (by linarith), if_neg (by linarith)]
    have e1 : b.available + -(price * quantity) + price * quantity = b.available := by
      ring
    have e2 : b.reserved + price * quantity + -(price * quantity) = b.reserved := by
      ring
    rw [e1, e2]
  · intro p quantity hr hq hle
    have hs : 0 ≤ p.shares := le_trans (by linarith) hle
    unfold reserveShares releaseReservedShares validatePositionState
    dsimp only
    rw [if_neg (by linarith), if_neg (by linarith), if_neg (by linarith)]
    simp only [Except.bind]
    rw [if_neg (by linarith), if_neg (by linarith), if_neg (by linarith)]
    have e : p.reservedShares + quantity - quantity = p.reservedShares := by
      ring
    rw [e]

/-- Witness for the reserve-release identity at a concrete balance and
position. -/
theorem place_then_cancel_identity_witness :
    (applyLedgerEntry { available := 100, reserved := 0 }
        (calculateBuyReserve "u" "o1" (3/10) 100).ledgerEntry).bind
      (fun b' => applyLedgerEntry b'
        (calculateOrderRelease "u" "o1" (3/10) 100)) =
      .ok { available := 100, reserved := 0 } ∧
    (reserveShares { shares := 100, reservedShares := 0, avgPrice := 1/2 } 40).bind
      (fun p' => releaseReservedShares p' 40) =
      .ok { shares := 100, reservedShares := 0, avgPrice := 1/2 } :=
  ⟨place_then_cancel_identity.1 { available := 100, reserved := 0 } "u" "o1"
      (3/10) 100 (by decide) (by decide) (by decide) (by decide),
    place_then_cancel_identity.2 { shares := 100, reservedShares := 0, avgPrice := 1/2 }
      40 (by decide) (by decide) (by decide)⟩

theorem lookupPosition_setPosition (key : PositionKey) (v : PositionState) :
    ∀ ps : List (PositionKey × PositionState),
      lookupPosition (setPosition ps key v) key = some v := by
  intro ps
  induction ps with
  | nil => simp [setPosition, lookupPosition]
  | cons kv rest ih =>
    obtain ⟨k1, v1⟩ := kv
    rw [setPosition]
    by_cases hk : k1 = key
    · rw [if_pos hk]
      simp [lookupPosition]
    · rw [if_neg hk]
      unfold lookupPosition at ih ⊢
      rw [List.find?_cons, decide_eq_false hk]
      exact ih

/-- C10: a position's avgPrice is never changed by an operation that does
not add shares.  `updatePosition` recomputes avgPrice only when
deltaShares is positive and a trade price is supplied, so SELL fills,
share reservations and reservation releases leave it unchanged; and the
market-resolution clear writes only shares and reservedShares, leaving
the last avgPrice on the cleared row. -/
theorem updatePosition_avgPrice_frame :
    (∀ (db : DbState) (input : UpdatePositionInput) (db' : DbState),
      updatePosition db input = .ok db' →
      ¬ (0 < input.deltaShares ∧ input.tradePrice.isSome = true) →
      (lookupPosition db'.positions
          { userId := input.userId, marketId := input.marketId
            outcome := input.outcome }).map (fun p => p.avgPrice) =
        some ((lookupPosition db.positions
          { userId := input.userId, marketId := input.marketId
            outcome := input.outcome }).getD
          { shares := 0, reservedShares := 0, avgPrice := 0 }).avgPrice) ∧
    (∀ (p : PositionState) (u : SettlementPositionUpdate),
      (resolveClearPosition p u).avgPrice = p.avgPrice) := by
  constructor
  · intro db input db' hok hguard
    unfold updatePosition at hok
    dsimp only at hok
    split at hok
    · exact absurd hok (by simp)
    · split at hok
      · exact absurd hok (by simp)
      · split at hok
        · exact absurd hok (by simp)
        · injection hok with h
          subst h
          dsimp only
          rw [lookupPosition_setPosition]
          rcases htp : input.tradePrice with _ | tp
          · rfl
          · have hnd : ¬ 0 < input.deltaShares := by
              intro hd
              exact hguard ⟨hd, by rw [htp]; rfl⟩
            dsimp only
            rw [if_neg hnd]
            rfl
  · intro p u
    rfl

/-- State for the avgPrice frame witness: user u holds 100 YES shares at
average price 0.5 with 40 reserved. -/
def c10Db : DbState :=
  { balances := []
    ledgerEntries := []
    positions :=
      [ ({ userId := "u", marketId := "M", outcome := .YES },
         { shares := 100, reservedShares := 40, avgPrice := 1/2 }) ] }

/-- A SELL fill consuming 40 reserved shares at trade price 0.7: the
share delta is negative, so the average price must stay 0.5. -/
def c10Input : UpdatePositionInput :=
  { userId := "u", marketId := "M", outcome := .YES
    deltaShares := -40, deltaReservedShares := -40, tradePrice := some (7/10) }

/-- Database state after the witness fill: 60 shares left, none
reserved, average price untouched. -/
def c10After : DbState :=
  { balances := []
    ledgerEntries := []
    positions :=
      [ ({ userId := "u", marketId := "M", outcome := Outcome.YES },
         { shares := 60, reservedShares := 0, avgPrice := 1/2 }) ] }

/-- Witness for the avgPrice frame theorem at the concrete SELL fill and
at a concrete resolution clear. -/
theorem updatePosition_avgPrice_frame_witness :
    (lookupPosition c10After.positions
        { userId := c10Input.userId, marketId := c10Input.marketId
          outcome := c10Input.outcome }).map (fun p => p.avgPrice) =
      some ((lookupPosition c10Db.positions
        { userId := c10Input.userId, marketId := c10Input.marketId
          outcome := c10Input.outcome }).getD
        { shares := 0, reservedShares := 0, avgPrice := 0 }).avgPrice ∧
    (resolveClearPosition { shares := 60, reservedShares := 0, avgPrice := 1/2 }
        { userId := "u", marketId := "M", outcome := .YES
          newShares := 0, newReservedShares := 0 }).avgPrice = 1/2 :=
  ⟨updatePosition_avgPrice_frame.1 c10Db c10Input c10After (by rfl) (by decide),
    updatePosition_avgPrice_frame.2
      { shares := 60, reservedShares := 0, avgPrice := 1/2 }
      { userId := "u", marketId := "M", outcome := .YES
        newShares := 0, newReservedShares := 0 }⟩

/-- Modelled from the spec: the matching contract of `addOrder`.
`CrossSpec crosses r book ms r2 book2` holds when, starting from taker
remaining `r` against the opposite-side book `book`, the loop produces
the matches `ms` and ends with taker remaining `r2` and book `book2`:
it keeps matching while the head maker's price crosses the taker's limit
and the taker's remaining is positive, each match quantity is
`min r maker.remaining`, both remainings decrement, a maker whose
remaining reaches 0 is removed from the book, and matching stops when
the taker's remaining reaches 0, the book empties, or the head price no
longer crosses. -/
inductive CrossSpec (crosses : ℚ → Prop) :
    ℚ → List EngineOrder → List MatchResult → ℚ → List EngineOrder → Prop
  | stopEmpty (r : ℚ) : CrossSpec crosses r [] [] r []
  | stopFilled {r : ℚ} (book : List EngineOrder) (h : ¬ 0 < r) :
      CrossSpec crosses r book [] r book
  | stopPrice {r : ℚ} {mk : EngineOrder} {rest : List EngineOrder}
      (h : ¬ crosses mk.price) :
      CrossSpec crosses r (mk :: rest) [] r (mk :: rest)
  | step {r r' : ℚ} {mk : EngineOrder} {rest book' : List EngineOrder}
      {m : MatchResult} {ms : List MatchResult}
      (hr : 0 < r) (hp : crosses mk.price)
      (hq : m.quantity = min r mk.remaining)
      (hnext : CrossSpec crosses (r - m.quantity)
        (if mk.remaining - m.quantity = 0 then rest
         else { mk with remaining := mk.remaining - m.quantity } :: rest)
        ms r' book') :
      CrossSpec crosses r (mk :: rest) (m :: ms) r' book'

/-- The BUY matching loop satisfies the spec's matching contract with the
crossing condition that the maker's price is at most the taker's limit. -/
theorem matchBuyLoop_crossSpec (feeRate : ℚ) :
    ∀ (asks : List EngineOrder) (taker : EngineOrder),
      CrossSpec (fun p => p ≤ taker.price) taker.remaining asks
        (matchBuyLoop feeRate taker asks).1
        (matchBuyLoop feeRate taker asks).2.1.remaining
        (matchBuyLoop feeRate taker asks).2.2 := by
  intro asks
  induction asks with
  | nil =>
    intro taker
    rw [matchBuyLoop]
    exact CrossSpec.stopEmpty _
  | cons maker rest ih =>
    intro taker
    rw [matchBuyLoop]
    by_cases hc : 0 < taker.remaining ∧ maker.price ≤ taker.price
    · rw [if_pos hc]
      dsimp only
      by_cases hz : maker.remaining - min taker.remaining maker.remaining = 0
      · rw [if_pos hz]
        dsimp only
        refine CrossSpec.step hc.1 hc.2 rfl ?_
        dsimp only
        rw [if_pos hz]
        exact ih { taker with remaining := taker.remaining - min taker.remaining maker.remaining }
      · rw [if_neg hz]
        dsimp only
        refine CrossSpec.step hc.1 hc.2 rfl ?_
        dsimp only
        rw [if_neg hz]
        have hmin : min taker.remaining maker.remaining = taker.remaining := by
          rcases le_total taker.remaining maker.remaining with h | h
          · exact min_eq_left h
          · exfalso
            apply hz
            rw [min_eq_right h]
            ring
        have hzero : taker.remaining - min taker.remaining maker.remaining = 0 := by
          rw [hmin]
          ring
        refine CrossSpec.stopFilled _ ?_
        rw [hzero]
        simp
    · rw [if_neg hc]
      push_neg at hc
      by_cases hr : 0 < taker.remaining
      · exact CrossSpec.stopPrice (not_le.mpr (hc hr))
      · exact CrossSpec.stopFilled _ hr

/-- The SELL matching loop satisfies the spec's matching contract with
the crossing condition that the maker's price is at least the taker's
limit. -/
theorem matchSellLoop_crossSpec (feeRate : ℚ) :
    ∀ (bids : List EngineOrder) (taker : EngineOrder),
      CrossSpec (fun p => taker.price ≤ p) taker.remaining bids
        (matchSellLoop feeRate taker bids).1
        (matchSellLoop feeRate taker bids).2.1.remaining
        (matchSellLoop feeRate taker bids).2.2 := by
  intro bids
  induction bids with
  | nil =>
    intro taker
    rw [matchSellLoop]
    exact CrossSpec.stopEmpty _
  | cons maker rest ih =>
    intro taker
    rw [matchSellLoop]
    by_cases hc : 0 < taker.remaining ∧ taker.price ≤ maker.price
    · rw [if_pos hc]
      dsimp only
      by_cases hz : maker.remaining - min taker.remaining maker.remaining = 0
      · rw [if_pos hz]
        dsimp only
        refine CrossSpec.step hc.1 hc.2 rfl ?_
        dsimp only
        rw [if_pos hz]
        exact ih { taker with remaining := taker.remaining - min taker.remaining maker.remaining }
      · rw [if_neg hz]
        dsimp only
        refine CrossSpec.step hc.1 hc.2 rfl ?_
        dsimp only
        rw [if_neg hz]
        have hmin : min taker.remaining maker.remaining = taker.remaining := by
          rcases le_total taker.remaining maker.remaining with h | h
          · exact min_eq_left h
          · exfalso
            apply hz
            rw [min_eq_right h]
            ring
        have hzero : taker.remaining - min taker.remaining maker.remaining = 0 := by
          rw [hmin]
          ring
        refine CrossSpec.stopFilled _ ?_
        rw [hzero]
        simp
    · rw [if_neg hc]
      push_neg at hc
      by_cases hr : 0 < taker.remaining
      · exact CrossSpec.stopPrice (not_le.mpr (hc hr))
      · exact CrossSpec.stopFilled _ hr

/-- C4: `addOrder` implements the spec's matching contract.  For an
incoming order with positive remaining, a BUY taker satisfies `CrossSpec`
with crossing condition `ask price at most its limit` against the
pre-state asks (so a price exactly equal to the best opposite level
crosses), a SELL taker symmetrically against the pre-state bids; the
produced matches, the final taker remaining and the final opposite-side
book are exactly the relation's outputs. -/
theorem addOrder_crossSpec (st : MatchingEngine) (o : EngineOrder)
    (h : 0 < o.remaining) :
    (o.side = .BUY →
      CrossSpec (fun p => p ≤ o.price) o.remaining st.sellOrders
        (st.addOrder o).«matches»
        (((st.addOrder o).remainingOrder.map (fun r => r.remaining)).getD 0)
        (st.addOrder o).engine.sellOrders) ∧
    (o.side = .SELL →
      CrossSpec (fun p => o.price ≤ p) o.remaining st.buyOrders
        (st.addOrder o).«matches»
        (((st.addOrder o).remainingOrder.map (fun r => r.remaining)).getD 0)
        (st.addOrder o).engine.buyOrders) := by
  constructor
  · intro hs
    have key := matchBuyLoop_crossSpec st.takerFeeRate st.sellOrders o
    unfold MatchingEngine.addOrder
    rw [if_pos hs]
    dsimp only
    by_cases hrem : 0 < (matchBuyLoop st.takerFeeRate o st.sellOrders).2.1.remaining
    · rw [if_pos hrem]
      exact key
    · rw [if_neg hrem]
      by_cases hzr : (matchBuyLoop st.takerFeeRate o st.sellOrders).2.1.remaining = 0
      · rw [if_pos hzr]
        exact hzr ▸ key
      · rw [if_neg hzr]
        exact key
  · intro hs
    have key := matchSellLoop_crossSpec st.takerFeeRate st.buyOrders o
    unfold MatchingEngine.addOrder
    rw [hs]
    dsimp only
    by_cases hrem : 0 < (matchSellLoop st.takerFeeRate o st.buyOrders).2.1.remaining
    · rw [if_pos hrem]
      exact key
    · rw [if_neg hrem]
      by_cases hzr : (matchSellLoop st.takerFeeRate o st.buyOrders).2.1.remaining = 0
      · rw [if_pos hzr]
        exact hzr ▸ key
      · rw [if_neg hzr]
        exact key

/-- Witness for the matching-contract theorem at the concrete cross of
the maker-price witness. -/
theorem addOrder_crossSpec_witness :
    CrossSpec (fun p => p ≤ c3Taker.price) c3Taker.remaining c3Engine.sellOrders
      (c3Engine.addOrder c3Taker).«matches»
      (((c3Engine.addOrder c3Taker).remainingOrder.map (fun r => r.remaining)).getD 0)
      (c3Engine.addOrder c3Taker).engine.sellOrders :=
  (addOrder_crossSpec c3Engine c3Taker (by decide)).1 rfl

/-- Priority relation maintained on the bid list: price strictly
descending, ties broken by creation time ascending. -/
def bidPriority (a b : EngineOrder) : Prop :=
  b.price < a.price ∨ (a.price = b.price ∧ a.createdAt ≤ b.createdAt)

/-- Priority relation maintained on the ask list: price strictly
ascending, ties broken by creation time ascending. -/
def askPriority (a b : EngineOrder) : Prop :=
  a.price < b.price ∨ (a.price = b.price ∧ a.createdAt ≤ b.createdAt)

instance (a b : EngineOrder) : Decidable (bidPriority a b) := by
  unfold bidPriority
  infer_instance

instance (a b : EngineOrder) : Decidable (askPriority a b) := by
  unfold askPriority
  infer_instance

theorem bidPriority_trans {a b c : EngineOrder} (h1 : bidPriority a b)
    (h2 : bidPriority b c) : bidPriority a c := by
  unfold bidPriority at h1 h2 ⊢
  rcases h1 with h1 | ⟨e1, t1⟩
  · rcases h2 with h2 | ⟨e2, t2⟩
    · exact Or.inl (h2.trans h1)
    · exact Or.inl (by rw [← e2]; exact h1)
  · rcases h2 with h2 | ⟨e2, t2⟩
    · exact Or.inl (by rw [e1]; exact h2)
    · exact Or.inr ⟨e1.trans e2, t1.trans t2⟩

theorem askPriority_trans {a b c : EngineOrder} (h1 : askPriority a b)
    (h2 : askPriority b c) : askPriority a c := by
  unfold askPriority at h1 h2 ⊢
  rcases h1 with h1 | ⟨e1, t1⟩
  · rcases h2 with h2 | ⟨e2, t2⟩
    · exact Or.inl (h1.trans h2)
    · exact Or.inl (by rw [← e2]; exact h1)
  · rcases h2 with h2 | ⟨e2, t2⟩
    · exact Or.inl (by rw [e1]; exact h2)
    · exact Or.inr ⟨e1.trans e2, t1.trans t2⟩

theorem bidInsertBefore_true {o y : EngineOrder}
    (h : bidInsertBefore o y = true) : bidPriority o y := by
  unfold bidInsertBefore at h
  unfold bidPriority
  simp only [Bool.or_eq_true, Bool.and_eq_true, decide_eq_true_eq] at h
  rcases h with h | ⟨h1, h2⟩
  · exact Or.inl h
  · exact Or.inr ⟨h1.symm, le_of_lt h2⟩

theorem bidInsertBefore_false {o y : EngineOrder}
    (h : ¬ bidInsertBefore o y = true) : bidPriority y o := by
  unfold bidInsertBefore at h
  unfold bidPriority
  simp only [Bool.or_eq_true, Bool.and_eq_true, decide_eq_true_eq, not_or,
    not_and, not_lt] at h
  obtain ⟨h1, h2⟩ := h
  rcases lt_or_eq_of_le h1 with h3 | h3
  · exact Or.inl h3
  · exact Or.inr ⟨h3.symm, h2 h3.symm⟩

theorem askInsertBefore_true {o y : EngineOrder}
    (h : askInsertBefore o y = true) : askPriority o y := by
  unfold askInsertBefore at h
  unfold askPriority
  simp only [Bool.or_eq_true, Bool.and_eq_true, decide_eq_true_eq] at h
  rcases h with h | ⟨h1, h2⟩
  · exact Or.inl h
  · exact Or.inr ⟨h1.symm, le_of_lt h2⟩

theorem askInsertBefore_false {o y : EngineOrder}
    (h : ¬ askInsertBefore o y = true) : askPriority y o := by
  unfold askInsertBefore at h
  unfold askPriority
  simp only [Bool.or_eq_true, Bool.and_eq_true, decide_eq_true_eq, not_or,
    not_and, not_lt] at h
  obtain ⟨h1, h2⟩ := h
  rcases lt_or_eq_of_le h1 with h3 | h3
  · exact Or.inl h3
  · exact Or.inr ⟨h3, h2 h3⟩

theorem mem_insertBuyOrder (o x : EngineOrder) :
    ∀ xs : List EngineOrder, x ∈ insertBuyOrder xs o ↔ x = o ∨ x ∈ xs := by
  intro xs
  induction xs with
  | nil => simp [insertBuyOrder]
  | cons y rest ih =>
    rw [insertBuyOrder]
    by_cases hb : bidInsertBefore o y
    · rw [if_pos hb]
      simp only [List.mem_cons]
    · rw [if_neg hb]
      simp only [List.mem_cons, ih]
      tauto

theorem mem_insertSellOrder (o x : EngineOrder) :
    ∀ xs : List EngineOrder, x ∈ insertSellOrder xs o ↔ x = o ∨ x ∈ xs := by
  intro xs
  induction xs with
  | nil => simp [insertSellOrder]
  | cons y rest ih =>
    rw [insertSellOrder]
    by_cases hb : askInsertBefore o y
    · rw [if_pos hb]
      simp only [List.mem_cons]
    · rw [if_neg hb]
      simp only [List.mem_cons, ih]
      tauto

theorem pairwise_insertBuyOrder (o : EngineOrder) :
    ∀ xs : List EngineOrder, xs.Pairwise bidPriority →
      (insertBuyOrder xs o).Pairwise bidPriority := by
  intro xs
  induction xs with
  | nil =>
    intro _
    simp [insertBuyOrder]
  | cons y rest ih =>
    intro h
    rcases List.pairwise_cons.mp h with ⟨hy, hrest⟩
    rw [insertBuyOrder]
    by_cases hb : bidInsertBefore o y
    · rw [if_pos hb]
      refine List.pairwise_cons.mpr ⟨?_, h⟩
      intro z hz
      rcases List.mem_cons.mp hz with rfl | hz
      · exact bidInsertBefore_true hb
      · exact bidPriority_trans (bidInsertBefore_true hb) (hy z hz)
    · rw [if_neg hb]
      refine List.pairwise_cons.mpr ⟨?_, ih hrest⟩
      intro z hz
      rcases (mem_insertBuyOrder o z rest).mp hz with rfl | hz
      · exact bidInsertBefore_false hb
      · exact hy z hz

theorem pairwise_insertSellOrder (o : EngineOrder) :
    ∀ xs : List EngineOrder, xs.Pairwise askPriority →
      (insertSellOrder xs o).Pairwise askPriority := by
  intro xs
  induction xs with
  | nil =>
    intro _
    simp [insertSellOrder]
  | cons y rest ih =>
    intro h
    rcases List.pairwise_cons.mp h with ⟨hy, hrest⟩
    rw [insertSellOrder]
    by_cases hb : askInsertBefore o y
    · rw [if_pos hb]
      refine List.pairwise_cons.mpr ⟨?_, h⟩
      intro z hz
      rcases List.mem_cons.mp hz with rfl | hz
      · exact askInsertBefore_true hb
      · exact askPriority_trans (askInsertBefore_true hb) (hy z hz)
    · rw [if_neg hb]
      refine List.pairwise_cons.mpr ⟨?_, ih hrest⟩
      intro z hz
      rcases (mem_insertSellOrder o z rest).mp hz with rfl | hz
      · exact askInsertBefore_false hb
      · exact hy z hz

theorem pairwise_matchBuyLoop (feeRate : ℚ) :
    ∀ (asks : List EngineOrder) (taker : EngineOrder),
      asks.Pairwise askPriority →
      ((matchBuyLoop feeRate taker asks).2.2).Pairwise askPriority := by
  intro asks
  induction asks with
  | nil =>
    intro taker h
    rw [matchBuyLoop]
    exact h
  | cons maker rest ih =>
    intro taker h
    rcases List.pairwise_cons.mp h with ⟨hy, hrest⟩
    rw [matchBuyLoop]
    by_cases hc : 0 < taker.remaining ∧ maker.price ≤ taker.price
    · rw [if_pos hc]
      dsimp only
      by_cases hz : maker.remaining - min taker.remaining maker.remaining = 0
      · rw [if_pos hz]
        exact ih _ hrest
      · rw [if_neg hz]
        refine List.pairwise_cons.mpr ⟨?_, hrest⟩
        intro z hz2
        exact hy z hz2
    · rw [if_neg hc]
      exact h

theorem pairwise_matchSellLoop (feeRate : ℚ) :
    ∀ (bids : List EngineOrder) (taker : EngineOrder),
      bids.Pairwise bidPriority →
      ((matchSellLoop feeRate taker bids).2.2).Pairwise bidPriority := by
  intro bids
  induction bids with
  | nil =>
    intro taker h
    rw [matchSellLoop]
    exact h
  | cons maker rest ih =>
    intro taker h
    rcases List.pairwise_cons.mp h with ⟨hy, hrest⟩
    rw [matchSellLoop]
    by_cases hc : 0 < taker.remaining ∧ taker.price ≤ maker.price
    · rw [if_pos hc]
      dsimp only
      by_cases hz : maker.remaining - min taker.remaining maker.remaining = 0
      · rw [if_pos hz]
        exact ih _ hrest
      · rw [if_neg hz]
        refine List.pairwise_cons.mpr ⟨?_, hrest⟩
        intro z hz2
        exact hy z hz2
    · rw [if_neg hc]
      exact h

theorem removeOrderById_sublist (targetId : String) :
    ∀ xs : List EngineOrder, ((removeOrderById xs targetId).2).Sublist xs := by
  intro xs
  induction xs with
  | nil => simp [removeOrderById]
  | cons x rest ih =>
    rw [removeOrderById]
    by_cases hx : x.id = targetId
    · rw [if_pos hx]
      exact List.sublist_cons_self x rest
    · rw [if_neg hx]
      exact List.Sublist.cons₂ x ih

/-- Both book sides hold the ordering invariant. -/
def booksSorted (st : MatchingEngine) : Prop :=
  st.buyOrders.Pairwise bidPriority ∧ st.sellOrders.Pairwise askPriority

theorem booksSorted_addOrder (st : MatchingEngine) (o : EngineOrder)
    (h : booksSorted st) : booksSorted ((st.addOrder o).engine) := by
  unfold MatchingEngine.addOrder
  by_cases hs : o.side = .BUY
  · rw [if_pos hs]
    dsimp only
    by_cases hrem : 0 < (matchBuyLoop st.takerFeeRate o st.sellOrders).2.1.remaining
    · rw [if_pos hrem]
      exact ⟨pairwise_insertBuyOrder _ _ h.1, pairwise_matchBuyLoop _ _ _ h.2⟩
    · rw [if_neg hrem]
      exact ⟨h.1, pairwise_matchBuyLoop _ _ _ h.2⟩
  · rw [if_neg hs]
    dsimp only
    by_cases hrem : 0 < (matchSellLoop st.takerFeeRate o st.buyOrders).2.1.remaining
    · rw [if_pos hrem]
      exact ⟨pairwise_matchSellLoop _ _ _ h.1, pairwise_insertSellOrder _ _ h.2⟩
    · rw [if_neg hrem]
      exact ⟨pairwise_matchSellLoop _ _ _ h.1, h.2⟩

theorem booksSorted_cancelOrder (st : MatchingEngine) (orderId : String)
    (h : booksSorted st) : booksSorted ((st.cancelOrder orderId).1) := by
  unfold MatchingEngine.cancelOrder
  dsimp only
  split
  · exact ⟨h.1.sublist (removeOrderById_sublist _ _), h.2⟩
  · split
    · exact ⟨h.1, h.2.sublist (removeOrderById_sublist _ _)⟩
    · exact h

/-- One engine mutation: an order placement or a cancel. -/
inductive EngineOp
  | add (o : EngineOrder)
  | cancel (orderId : String)

def runOp (st : MatchingEngine) : EngineOp → MatchingEngine
  | .add o => (st.addOrder o).engine
  | .cancel orderId => (st.cancelOrder orderId).1

def runOps (st : MatchingEngine) (ops : List EngineOp) : MatchingEngine :=
  ops.foldl runOp st

theorem booksSorted_runOps :
    ∀ (ops : List EngineOp) (st : MatchingEngine), booksSorted st →
      booksSorted (runOps st ops) := by
  intro ops
  induction ops with
  | nil =>
    intro st h
    exact h
  | cons op rest ih =>
    intro st h
    have h1 : booksSorted (runOp st op) := by
      cases op with
      | add o => exact booksSorted_addOrder st o h
      | cancel orderId => exact booksSorted_cancelOrder st orderId h
    exact ih _ h1

theorem insertBuyOrder_decomp (o : EngineOrder) :
    ∀ xs : List EngineOrder,
      insertBuyOrder xs o =
        xs.takeWhile (fun z => ! bidInsertBefore o z) ++
          o :: xs.dropWhile (fun z => ! bidInsertBefore o z) := by
  intro xs
  induction xs with
  | nil => simp [insertBuyOrder]
  | cons y rest ih =>
    rw [insertBuyOrder, List.takeWhile_cons, List.dropWhile_cons]
    by_cases hb : bidInsertBefore o y
    · rw [if_pos hb]
      simp [hb]
    · rw [if_neg hb]
      simp only [Bool.not_eq_true] at hb
      simp [hb, ih]

theorem insertSellOrder_decomp (o : EngineOrder) :
    ∀ xs : List EngineOrder,
      insertSellOrder xs o =
        xs.takeWhile (fun z => ! askInsertBefore o z) ++
          o :: xs.dropWhile (fun z => ! askInsertBefore o z) := by
  intro xs
  induction xs with
  | nil => simp [insertSellOrder]
  | cons y rest ih =>
    rw [insertSellOrder, List.takeWhile_cons, List.dropWhile_cons]
    by_cases hb : askInsertBefore o y
    · rw [if_pos hb]
      simp [hb]
    · rw [if_neg hb]
      simp only [Bool.not_eq_true] at hb
      simp [hb, ih]

theorem tie_in_takeWhile_bid (o : EngineOrder) :
    ∀ xs : List EngineOrder, xs.Pairwise bidPriority →
      ∀ x ∈ xs, x.price = o.price → x.createdAt = o.createdAt →
        x ∈ xs.takeWhile (fun z => ! bidInsertBefore o z) := by
  intro xs
  induction xs with
  | nil => simp
  | cons y rest ih =>
    intro h x hx hp ht
    rcases List.pairwise_cons.mp h with ⟨hy, hrest⟩
    rcases List.mem_cons.mp hx with rfl | hx
    · have hb : bidInsertBefore o x = false := by
        simp [bidInsertBefore, hp, ht]
      rw [List.takeWhile_cons, hb]
      simp
    · have hb : bidInsertBefore o y = false := by
        by_contra hb'
        have hb2 : bidInsertBefore o y = true := by
          simpa using hb'
        have hyx := hy x hx
        unfold bidPriority at hyx
        simp only [bidInsertBefore, Bool.or_eq_true, Bool.and_eq_true,
          decide_eq_true_eq] at hb2
        rcases hb2 with h1 | ⟨h1, h2⟩
        · rcases hyx with h3 | ⟨h3, _⟩
          · rw [hp] at h3
            exact absurd (h3.trans h1) (lt_irrefl _)
          · rw [h3, hp] at h1
            exact absurd h1 (lt_irrefl _)
        · rcases hyx with h3 | ⟨_, h4⟩
          · rw [hp, ← h1] at h3
            exact absurd h3 (lt_irrefl _)
          · rw [ht] at h4
            exact absurd (lt_of_lt_of_le h2 h4) (lt_irrefl _)
      rw [List.takeWhile_cons, hb]
      simp only [Bool.not_false, if_pos]
      exact List.mem_cons_of_mem _ (ih hrest x hx hp ht)

theorem tie_in_takeWhile_ask (o : EngineOrder) :
    ∀ xs : List EngineOrder, xs.Pairwise askPriority →
      ∀ x ∈ xs, x.price = o.price → x.createdAt = o.createdAt →
        x ∈ xs.takeWhile (fun z => ! askInsertBefore o z) := by
  intro xs
  induction xs with
  | nil => simp
  | cons y rest ih =>
    intro h x hx hp ht
    rcases List.pairwise_cons.mp h with ⟨hy, hrest⟩
    rcases List.mem_cons.mp hx with rfl | hx
    · have hb : askInsertBefore o x = false := by
        simp [askInsertBefore, hp, ht]
      rw [List.takeWhile_cons, hb]
      simp
    · have hb : askInsertBefore o y = false := by
        by_contra hb'
        have hb2 : askInsertBefore o y = true := by
          simpa using hb'
        have hyx := hy x hx
        unfold askPriority at hyx
        simp only [askInsertBefore, Bool.or_eq_true, Bool.and_eq_true,
          decide_eq_true_eq] at hb2
        rcases hb2 with h1 | ⟨h1, h2⟩
        · rcases hyx with h3 | ⟨h3, _⟩
          · rw [hp] at h3
            exact absurd (h1.trans h3) (lt_irrefl _)
          · rw [h3, hp] at h1
            exact absurd h1 (lt_irrefl _)
        · rcases hyx with h3 | ⟨_, h4⟩
          · rw [hp, ← h1] at h3
            exact absurd h3 (lt_irrefl _)
          · rw [ht] at h4
            exact absurd (lt_of_lt_of_le h2 h4) (lt_irrefl _)
      rw [List.takeWhile_cons, hb]
      simp only [Bool.not_false, if_pos]
      exact List.mem_cons_of_mem _ (ih hrest x hx hp ht)

/-- C5: after any sequence of `addOrder` and `cancelOrder` calls starting
from an empty book, the bid list is sorted by price strictly descending
then creation time ascending and the ask list by price strictly
ascending then creation time ascending; and insertion is stable: the
inserted order lands exactly after the resting orders it does not
strictly beat, so a resting order with the same price and an equal
timestamp keeps its priority (it stays in the prefix before the inserted
order). -/
theorem books_sorted_and_insertion_stable :
    (∀ (feeRate : ℚ) (ops : List EngineOp),
      ((runOps (mkEngine feeRate) ops).buyOrders.Pairwise bidPriority) ∧
      ((runOps (mkEngine feeRate) ops).sellOrders.Pairwise askPriority)) ∧
    (∀ (xs : List EngineOrder) (o : EngineOrder),
      insertBuyOrder xs o =
        xs.takeWhile (fun z => ! bidInsertBefore o z) ++
          o :: xs.dropWhile (fun z => ! bidInsertBefore o z) ∧
      (xs.Pairwise bidPriority → ∀ x ∈ xs, x.price = o.price →
        x.createdAt = o.createdAt →
        x ∈ xs.takeWhile (fun z => ! bidInsertBefore o z))) ∧
    (∀ (xs : List EngineOrder) (o : EngineOrder),
      insertSellOrder xs o =
        xs.takeWhile (fun z => ! askInsertBefore o z) ++
          o :: xs.dropWhile (fun z => ! askInsertBefore o z) ∧
      (xs.Pairwise askPriority → ∀ x ∈ xs, x.price = o.price →
        x.createdAt = o.createdAt →
        x ∈ xs.takeWhile (fun z => ! askInsertBefore o z))) := by
  refine ⟨?_, ?_, ?_⟩
  · intro feeRate ops
    exact booksSorted_runOps ops (mkEngine feeRate)
      ⟨List.Pairwise.nil, List.Pairwise.nil⟩
  · intro xs o
    exact ⟨insertBuyOrder_decomp o xs, fun hs x hx hp ht =>
      tie_in_takeWhile_bid o xs hs x hx hp ht⟩
  · intro xs o
    exact ⟨insertSellOrder_decomp o xs, fun hs x hx hp ht =>
      tie_in_takeWhile_ask o xs hs x hx hp ht⟩

/-- Resting bid used by the sortedness witness. -/
def c5Resting : EngineOrder :=
  { id := "r1"
    userId := "U"
    marketId := "M"
    outcome := .YES
    side := .BUY
    price := 2/5
    quantity := 10
    remaining := 10
    createdAt := 7 }

/-- A second bid with the same price and the same timestamp. -/
def c5Tied : EngineOrder :=
  { c5Resting with id := "r2", userId := "V" }

/-- Witness for the sortedness and stability theorem: a concrete op
sequence keeps both sides sorted, and inserting an equal-price,
equal-timestamp bid leaves the pre-existing bid in the prefix before the
inserted one. -/
theorem books_sorted_and_insertion_stable_witness :
    (((runOps (mkEngine (1/100))
        [EngineOp.add c5Resting, EngineOp.add c3Ask,
          EngineOp.cancel "zz"]).buyOrders.Pairwise bidPriority) ∧
      ((runOps (mkEngine (1/100))
        [EngineOp.add c5Resting, EngineOp.add c3Ask,
          EngineOp.cancel "zz"]).sellOrders.Pairwise askPriority)) ∧
    c5Resting ∈ [c5Resting].takeWhile (fun z => ! bidInsertBefore c5Tied z) :=
  ⟨books_sorted_and_insertion_stable.1 (1/100)
      [EngineOp.add c5Resting, EngineOp.add c3Ask, EngineOp.cancel "zz"],
    (books_sorted_and_insertion_stable.2.1 [c5Resting] c5Tied).2
      (by simp) c5Resting (by simp) rfl rfl⟩

/-- Ledger entry that resolution settlement owes one qualifying position:
credit the shares at 1.0 each with SETTLEMENT_WIN for the winning
outcome, otherwise a zero-delta SETTLEMENT_LOSS audit entry. -/
def settlementEntryFor (marketId : String) (winner : Outcome)
    (p : PositionForSettlement) : LedgerEntryInput :=
  if p.outcome = winner then
    { userId := p.userId
      deltaAvailable := p.shares
      deltaReserved := 0
      reason := .SETTLEMENT_WIN
      refType := some "market"
      refId := some marketId }
  else
    { userId := p.userId
      deltaAvailable := 0
      deltaReserved := 0
      reason := .SETTLEMENT_LOSS
      refType := some "market"
      refId := some marketId }

/-- C7: for nonnegative share counts, `calculateSettlement` emits exactly
one ledger entry per position of the resolved market with positive
shares — the SETTLEMENT_WIN credit of the share count when the position's
outcome equals the winner, the zero-delta SETTLEMENT_LOSS entry otherwise
— plus one update clearing that position's shares and reservedShares to
0; positions of other markets and zero-share positions contribute no
entry and no update. -/
theorem calculateSettlement_spec (marketId : String) (winner : Outcome)
    (positions : List PositionForSettlement)
    (h : ∀ p ∈ positions, 0 ≤ p.shares) :
    (calculateSettlement marketId winner positions).ledgerEntries =
      (positions.filter
        (fun p => decide (p.marketId = marketId) && decide (0 < p.shares))).map
        (settlementEntryFor marketId winner) ∧
    (calculateSettlement marketId winner positions).positionUpdates =
      (positions.filter
        (fun p => decide (p.marketId = marketId) && decide (0 < p.shares))).map
        (fun p =>
          { userId := p.userId
            marketId := p.marketId
            outcome := p.outcome
            newShares := 0
            newReservedShares := 0 }) := by
  induction positions with
  | nil => exact ⟨rfl, rfl⟩
  | cons p rest ih =>
    have hrest := ih (fun q hq => h q (List.mem_cons_of_mem _ hq))
    have hp0 := h p (List.mem_cons_self _ _)
    rw [calculateSettlement]
    by_cases hm : p.marketId = marketId
    · by_cases hz : p.shares = 0
      · have hns : ¬ 0 < p.shares := by
          rw [hz]
          exact lt_irrefl 0
        have hfc : (decide (p.marketId = marketId) && decide (0 < p.shares)) = false := by
          rw [decide_eq_false hns, Bool.and_false]
        rw [if_neg (by simpa using hm), if_pos hz, List.filter_cons,
          if_neg (by simp [hfc])]
        exact hrest
      · have hps : 0 < p.shares := lt_of_le_of_ne hp0 (Ne.symm hz)
        have hfc : (decide (p.marketId = marketId) && decide (0 < p.shares)) = true := by
          rw [decide_eq_true hm, decide_eq_true hps, Bool.and_self]
        rw [if_neg (by simpa using hm), if_neg hz]
        dsimp only
        rw [List.filter_cons, if_pos hfc, List.map_cons, List.map_cons]
        exact ⟨by rw [hrest.1]; rfl, by rw [hrest.2]⟩
    · have hfc : (decide (p.marketId = marketId) && decide (0 < p.shares)) = false := by
        rw [decide_eq_false hm, Bool.false_and]
      rw [if_pos hm, List.filter_cons, if_neg (by simp [hfc])]
      exact hrest

/-- Positions of the resolution witness: a YES winner with 100 shares, a
NO loser with 50 shares, and a zero-share row. -/
def c7Positions : List PositionForSettlement :=
  [ { userId := "winner", marketId := "market1", outcome := .YES,
      shares := 100, reservedShares := 0, avgPrice := 3/5 },
    { userId := "loser", marketId := "market1", outcome := .NO,
      shares := 50, reservedShares := 0, avgPrice := 2/5 },
    { userId := "empty", marketId := "market1", outcome := .YES,
      shares := 0, reservedShares := 0, avgPrice := 0 } ]

/-- Witness for the resolution settlement theorem at the concrete
positions. -/
theorem calculateSettlement_spec_witness :
    (calculateSettlement "market1" .YES c7Positions).ledgerEntries =
      (c7Positions.filter
        (fun p => decide (p.marketId = "market1") && decide (0 < p.shares))).map
        (settlementEntryFor "market1" .YES) ∧
    (calculateSettlement "market1" .YES c7Positions).positionUpdates =
      (c7Positions.filter
        (fun p => decide (p.marketId = "market1") && decide (0 < p.shares))).map
        (fun p =>
          { userId := p.userId
            marketId := p.marketId
            outcome := p.outcome
            newShares := 0
            newReservedShares := 0 }) :=
  calculateSettlement_spec "market1" .YES c7Positions (by decide)

/-- C8: the transactional ledger application rejects exactly when the
resulting available or reserved balance would be negative; on success the
user's stored balance becomes exactly the componentwise sum, exactly one
entry is appended, and positions are untouched.  A rejection is a thrown
error that aborts the transaction and returns no state, so on rejection
the stored balance is unchanged and no entry is written. -/
theorem applyLedger_spec (db : DbState) (input : ApplyLedgerInput) :
    ((∃ e, applyLedger db input = .error e) ↔
      (((lookupBalance db.balances input.userId).getD
          { available := 0, reserved := 0 }).available + input.deltaAvailable < 0 ∨
        ((lookupBalance db.balances input.userId).getD
          { available := 0, reserved := 0 }).reserved + input.deltaReserved < 0)) ∧
    (∀ db', applyLedger db input = .ok db' →
      db'.balances = setBalance db.balances input.userId
        { available := ((lookupBalance db.balances input.userId).getD
            { available := 0, reserved := 0 }).available + input.deltaAvailable
          reserved := ((lookupBalance db.balances input.userId).getD
            { available := 0, reserved := 0 }).reserved + input.deltaReserved } ∧
      db'.ledgerEntries = db.ledgerEntries ++
        [ { userId := input.userId
            deltaAvailable := input.deltaAvailable
            deltaReserved := input.deltaReserved
            reason := input.reason
            refType := input.refType
            refId := input.refId } ] ∧
      db'.positions = db.positions) := by
  unfold applyLedger
  by_cases h1 : ((lookupBalance db.balances input.userId).getD
      { available := 0, reserved := 0 }).available + input.deltaAvailable < 0
  · rw [if_pos h1]
    refine ⟨⟨fun _ => Or.inl h1, fun _ => ⟨_, rfl⟩⟩, ?_⟩
    intro db' hdb'
    exact absurd hdb' (by simp)
  · rw [if_neg h1]
    by_cases h2 : ((lookupBalance db.balances input.userId).getD
        { available := 0, reserved := 0 }).reserved + input.deltaReserved < 0
    · rw [if_pos h2]
      refine ⟨⟨fun _ => Or.inr h2, fun _ => ⟨_, rfl⟩⟩, ?_⟩
      intro db' hdb'
      exact absurd hdb' (by simp)
    · rw [if_neg h2]
      refine ⟨⟨?_, ?_⟩, ?_⟩
      · rintro ⟨e, he⟩
        exact absurd he (by simp)
      · intro hneg
        rcases hneg with h | h
        · exact absurd h h1
        · exact absurd h h2
      · intro db' hdb'
        injection hdb' with hh
        subst hh
        exact ⟨rfl, rfl, rfl⟩

/-- Database state for the ledger-application witness. -/
def c8Db : DbState :=
  { balances := [("u", { available := 5, reserved := 0 })]
    ledgerEntries := []
    positions := [] }

/-- A delta the balance can absorb. -/
def c8Good : ApplyLedgerInput :=
  { userId := "u", deltaAvailable := -3, deltaReserved := 3
    reason := .ORDER_RESERVE, refType := some "order", refId := some "o1" }

/-- A delta that would drive available negative. -/
def c8Bad : ApplyLedgerInput :=
  { userId := "u", deltaAvailable := -6, deltaReserved := 0
    reason := .ORDER_RESERVE, refType := some "order", refId := some "o2" }

/-- Database state after the accepted witness delta. -/
def c8After : DbState :=
  { balances := [("u", { available := 2, reserved := 3 })]
    ledgerEntries :=
      [ { userId := "u", deltaAvailable := -3, deltaReserved := 3
          reason := .ORDER_RESERVE, refType := some "order"
          refId := some "o1" } ]
    positions := [] }

/-- Witness for the ledger-application theorem: the accepted delta yields
exactly the summed balance, and the overdrawing delta is rejected. -/
theorem applyLedger_spec_witness :
    (c8After.balances =
      setBalance c8Db.balances c8Good.userId
        { available := ((lookupBalance c8Db.balances c8Good.userId).getD
            { available := 0, reserved := 0 }).available + c8Good.deltaAvailable
          reserved := ((lookupBalance c8Db.balances c8Good.userId).getD
            { available := 0, reserved := 0 }).reserved + c8Good.deltaReserved }) ∧
    (∃ e, applyLedger c8Db c8Bad = .error e) :=
  ⟨((applyLedger_spec c8Db c8Good).2 c8After (by rfl)).1,
    (applyLedger_spec c8Db c8Bad).1.mpr (Or.inl (by decide))⟩

end
